import Mathlib

/-!
# Verification of the FFT benchmark harness (`perf.py`)

This file is a shallow embedding of the timing harness of the repository:
the functions `get_timer` and `time_func` of `perf.py`, together with
proofs of the behavioural properties of the specification.

Modelling conventions:

* A numpy array is modelled by its content, a value of an arbitrary type
  `α`.  The working buffer `buf` of `time_func` is a separate storage
  location (`np.empty_like(x)` does not alias `x`), so the candidate
  function receives the buffer's current content and can only produce a
  new content for the buffer; it never sees the location holding `x`.
* The candidate `func` is `f : α → Except ε (α × ρ)`: from the buffer
  content it either raises an exception `e : ε` or returns the new buffer
  content together with the call's result value.
* Times are rationals.  The timer is a pair of a sample stream
  `now : ℕ → ℚ` (the value returned by the k-th call of `timer.now()`,
  counted from 0) and a difference function `tdelta : ℚ → ℚ → ℚ`
  (`timer.time_delta`).
* The run state `S` records the content of `x` and of the buffer, how many
  `np.copyto(buf, x)` were executed, how many timer samples were taken,
  the buffer content passed to `func` at each call, and whether the
  garbage collector is enabled.
* Python's `ValueError` (the specification's `InvalidArgument`) and an
  exception escaping from `func` are the two error outcomes of a run.
-/

namespace FFTBench

set_option maxRecDepth 8000

/-- Error outcomes of a `time_func` run: `valueError` is the `ValueError`
raised by the argument checks (the specification calls it
`InvalidArgument`); `exc e` is an exception `e` raised by the candidate
function and propagated out of `time_func`. -/
inductive PyErr (ε : Type) : Type
  | valueError : PyErr ε
  | exc : ε → PyErr ε
  deriving DecidableEq, Repr

/-- The state of one `time_func` run.  `x` is the content of the input
array, `buf` the content of the working buffer, `bufAllocated` whether
`np.empty_like` has run, `copyCount` the number of executed
`np.copyto(buf, x)`, `clk` the number of `timer.now()` samples taken so
far, `trace` the buffer content passed to `func` at each call so far (in
order), and `gcEnabled` the garbage-collector flag. -/
structure S (α : Type) : Type where
  x : α
  buf : α
  bufAllocated : Bool
  copyCount : Nat
  clk : Nat
  trace : List α
  gcEnabled : Bool
  deriving DecidableEq, Repr

variable {α ρ ε : Type}

/-- `np.copyto(buf, x)` (perf.py line 155/180): overwrite the buffer with
the content of `x`. -/
def copyto (s : S α) : S α :=
  { s with buf := s.x, copyCount := s.copyCount + 1 }

/-- `buf = np.empty_like(x)` (perf.py line 154): the buffer storage comes
into existence; its content stays whatever garbage it was initialised
with. -/
def allocate (s : S α) : S α :=
  { s with bufAllocated := true }

/-- One call of `timer.now()` consumes the next sample index. -/
def tick (s : S α) : S α :=
  { s with clk := s.clk + 1 }

/-- `gc.disable()` (perf.py line 159). -/
def gcDisable (s : S α) : S α :=
  { s with gcEnabled := false }

/-- `gc.enable()` (perf.py line 193). -/
def gcEnable (s : S α) : S α :=
  { s with gcEnabled := true }

/-- Bookkeeping of `res = func(buf, **kwargs)` (perf.py lines
161/182/188): the buffer content handed to the candidate is recorded in
`trace`. -/
def recordCall (s : S α) : S α :=
  { s with trace := s.trace ++ [s.buf] }

/-- Python `int()` applied to a rational: truncation toward zero
(`int(5/time_tot)` in perf.py line 168). -/
def pyInt (q : ℚ) : ℤ :=
  q.num.tdiv (q.den : ℤ)

/-- perf.py lines 166–168: the effective batch size.  `time_tot` is the
warm-up latency, `batch_size` the requested batch size; if
`time_tot * batch_size > 5` the batch size is recalibrated to
`1 + int(5 / time_tot)`. -/
def actual_batch_size (time_tot : ℚ) (batch_size : ℤ) : ℤ :=
  if 5 < time_tot * (batch_size : ℚ) then 1 + pyInt (5 / time_tot) else batch_size

/-- perf.py lines 179–184: the inner batch loop with
`refresh_buffer=True`.  Each iteration copies `x` into the buffer, brackets
a single call of `func` with two timer samples and adds the delta to the
accumulator `acc`.  `r` is the current value of the Python variable
`res`. -/
def innerRefresh (f : α → Except ε (α × ρ)) (now : Nat → ℚ)
    (tdelta : ℚ → ℚ → ℚ) :
    Nat → ℚ → ρ → S α → Except (PyErr ε) (ℚ × ρ) × S α
  | 0, acc, r, s => (Except.ok (acc, r), s)
  | n + 1, acc, _, s =>
    match f (tick (copyto s)).buf with
    | Except.error e => (Except.error (PyErr.exc e), recordCall (tick (copyto s)))
    | Except.ok br =>
      innerRefresh f now tdelta n
        (acc + tdelta (now s.clk) (now (s.clk + 1))) br.2
        (tick { recordCall (tick (copyto s)) with buf := br.1 })

/-- perf.py lines 187–188: the inner batch loop with
`refresh_buffer=False`.  The buffer is not refreshed and no timer sample is
taken inside the loop; only `res` is updated. -/
def innerNoRefresh (f : α → Except ε (α × ρ)) :
    Nat → ρ → S α → Except (PyErr ε) ρ × S α
  | 0, r, s => (Except.ok r, s)
  | n + 1, _, s =>
    match f s.buf with
    | Except.error e => (Except.error (PyErr.exc e), recordCall s)
    | Except.ok br => innerNoRefresh f n br.2 { recordCall s with buf := br.1 }

/-- perf.py lines 176–192: the measurement loop.  Each of the `n`
remaining repetitions produces one entry `time_tot / actual_batch_size`
appended to `acc`.  With `refresh = true` the interval is the sum of the
per-call deltas of `innerRefresh`; with `refresh = false` the whole batch
of `absz` calls is bracketed by one pair of timer samples. -/
def outerLoop (f : α → Except ε (α × ρ)) (now : Nat → ℚ)
    (tdelta : ℚ → ℚ → ℚ) (refresh : Bool) (absz : ℤ) :
    Nat → List ℚ → ρ → S α → Except (PyErr ε) (List ℚ × ρ) × S α
  | 0, acc, r, s => (Except.ok (acc, r), s)
  | n + 1, acc, r, s =>
    if refresh then
      match innerRefresh f now tdelta absz.toNat 0 r s with
      | (Except.error e, s1) => (Except.error e, s1)
      | (Except.ok tr, s1) =>
        outerLoop f now tdelta refresh absz n
          (acc ++ [tr.1 / (absz : ℚ)]) tr.2 s1
    else
      match innerNoRefresh f absz.toNat r (tick s) with
      | (Except.error e, s1) => (Except.error e, s1)
      | (Except.ok r1, s1) =>
        outerLoop f now tdelta refresh absz n
          (acc ++ [tdelta (now s.clk) (now s1.clk) / (absz : ℚ)]) r1 (tick s1)

/-- The state at the start of a `time_func` run.  `bufInit` is the
arbitrary garbage content `np.empty_like` leaves in the not yet
initialised buffer. -/
def initState (x bufInit : α) (gc0 : Bool) : S α :=
  { x := x, buf := bufInit, bufAllocated := false, copyCount := 0,
    clk := 0, trace := [], gcEnabled := gc0 }

/-- The state just before the warm-up call of `func` (perf.py lines
153–160): buffer allocated and filled from `x`, collector disabled, first
timer sample (index 0) taken. -/
def warmState (x bufInit : α) (gc0 : Bool) : S α :=
  tick (gcDisable (copyto (allocate (initState x bufInit gc0))))

/-- perf.py lines 131–194, `time_func`.  `xIsArray` and `kwIsDict` are the
outcomes of the two `isinstance` checks of lines 141 and 143; `gc0` is the
garbage-collector state on entry.  The checks run first; then the buffer is
allocated and filled, the collector is disabled, the warm-up call is
bracketed by timer samples 0 and 1, the effective batch size is computed
from the warm-up latency, and the measurement loop runs.  `gc.enable()` is
executed only on the normal return path (there is no try/finally in the
source). -/
def time_func (f : α → Except ε (α × ρ)) (now : Nat → ℚ)
    (tdelta : ℚ → ℚ → ℚ) (x bufInit : α)
    (xIsArray kwIsDict gc0 : Bool) (batch_size : ℤ) (repetitions : Nat)
    (refresh_buffer : Bool) :
    Except (PyErr ε) (List ℚ × ρ) × S α :=
  if xIsArray = false then
    (Except.error PyErr.valueError, initState x bufInit gc0)
  else if kwIsDict = false then
    (Except.error PyErr.valueError, initState x bufInit gc0)
  else
    match f (warmState x bufInit gc0).buf with
    | Except.error e => (Except.error (PyErr.exc e), recordCall (warmState x bufInit gc0))
    | Except.ok br =>
      match outerLoop f now tdelta refresh_buffer
          (actual_batch_size (tdelta (now 0) (now 1)) batch_size)
          repetitions [] br.2
          (tick { recordCall (warmState x bufInit gc0) with buf := br.1 }) with
      | (Except.error e, s3) => (Except.error e, s3)
      | (Except.ok tsr, s3) => (Except.ok tsr, gcEnable s3)

/-- Failure modes of `get_timer`: `unavailableClock` is the specification's
name for the failure when no module of the preference list is importable
(in the Python source the loop then leaves `timer_name` unbound and line 52
raises `UnboundLocalError`); `keyError` is the `KeyError` of the dictionary
lookups in lines 48–58 when the selected module is not one of the three
known ones. -/
inductive TimerErr : Type
  | unavailableClock : TimerErr
  | keyError : TimerErr
  deriving DecidableEq, Repr

/-- perf.py lines 39–46: the import loop of `get_timer`.  `avail m = true`
models that `importlib.import_module(m)` succeeds.  The first available
module name is selected (`break`); an unavailable one is skipped
(`except ImportError: pass`). -/
def pickTimerName (avail : String → Bool) : List String → Option String
  | [] => none
  | m :: ms => if avail m then some m else pickTimerName avail ms

/-- The default preference list of `get_timer` (perf.py line 16). -/
def time_modules : List String :=
  ["itimer", "timeit", "time"]

/-- perf.py lines 16–60, `get_timer`: run the import loop, then build the
`Timer` from the selected name via the `now` / `time_delta` dictionaries
(keys `itimer`, `timeit`, `time`).  The result is the selected timer name;
if no module is available the function fails instead of producing a
timer. -/
def get_timer (avail : String → Bool) (mods : List String) :
    Except TimerErr String :=
  match pickTimerName avail mods with
  | none => Except.error TimerErr.unavailableClock
  | some n =>
    if n = "itimer" ∨ n = "timeit" ∨ n = "time" then Except.ok n
    else Except.error TimerErr.keyError

/-- `true` when every module of the list fails to import. -/
def allUnavailable (avail : String → Bool) (mods : List String) : Bool :=
  mods.all (fun m => !(avail m))

/-- `true` when every measurement of the list is non-negative. -/
def allNonneg (ts : List ℚ) : Bool :=
  ts.all (fun t => decide (0 ≤ t))

/-- `r` is the result value of the final call of the candidate recorded in
state `s`: `f` applied to the last buffer content handed to it (the last
entry of the call trace) returns `r` as its result component. -/
def lastCallResult (f : α → Except ε (α × ρ)) (s : S α) (r : ρ) : Prop :=
  ∃ b, s.trace.getLast? = some b ∧ Except.map Prod.snd (f b) = Except.ok r

/-- Concrete candidate for instantiations: increments the buffer in place
and returns the value it saw. -/
def fIncr : ℕ → Except ℕ (ℕ × ℕ) :=
  fun b => Except.ok (b + 1, b)

/-- Concrete candidate for instantiations: leaves the buffer alone and
returns the value it saw. -/
def fKeep : ℕ → Except ℕ (ℕ × ℕ) :=
  fun b => Except.ok (b, b)

/-- Concrete candidate for instantiations: always raises. -/
def fRaise : ℕ → Except ℕ (ℕ × ℕ) :=
  fun _ => Except.error 0

/-- Concrete timer for instantiations: the k-th sample is k seconds. -/
def nowId : ℕ → ℚ :=
  fun i => (i : ℚ)

/-- Concrete clock-difference function: plain subtraction, as for the
`timeit` and `time` modules. -/
def tdSub : ℚ → ℚ → ℚ :=
  fun a b => b - a

/-- Concrete degenerate timer for instantiations: all samples are 0. -/
def nowZero : ℕ → ℚ :=
  fun _ => 0

/-- Concrete degenerate clock-difference function: always 0. -/
def tdZero : ℚ → ℚ → ℚ :=
  fun _ _ => 0

/-- Concrete availability map: no module is importable. -/
def availNone : String → Bool :=
  fun _ => false

/-! ## Helper lemmas -/

theorem pyInt_eq_floor (q : ℚ) (h : 0 ≤ q) : pyInt q = ⌊q⌋ := by
  rw [pyInt, Rat.floor_def]
  exact Int.tdiv_eq_ediv (Rat.num_nonneg.mpr h) (by positivity)

theorem pyInt_nonneg (q : ℚ) (h : 0 ≤ q) : 0 ≤ pyInt q :=
  Int.tdiv_nonneg (Rat.num_nonneg.mpr h) (by positivity)

theorem pos_of_guard (L : ℚ) (bs : ℤ) (hbs : 1 ≤ bs) (hg : 5 < L * (bs : ℚ)) :
    0 < L := by
  by_contra hL
  push_neg at hL
  have hbs' : (1 : ℚ) ≤ (bs : ℚ) := by exact_mod_cast hbs
  nlinarith

theorem actual_batch_size_pos (L : ℚ) (bs : ℤ) (hbs : 1 ≤ bs) :
    1 ≤ actual_batch_size L bs := by
  rw [actual_batch_size]
  split
  · have hL := pos_of_guard L bs hbs (by assumption)
    have h5 : 0 ≤ pyInt (5 / L) := pyInt_nonneg _ (by positivity)
    omega
  · exact hbs

theorem pickTimerName_eq_find (avail : String → Bool) (mods : List String) :
    pickTimerName avail mods = mods.find? avail := by
  induction mods with
  | nil => rfl
  | cons m ms ih => by_cases h : avail m <;> simp [pickTimerName, List.find?_cons, h, ih]

theorem replicate_snoc (l : List α) (a : α) (h : l = List.replicate l.length a) :
    l ++ [a] = List.replicate (l ++ [a]).length a := by
  rw [List.length_append, List.length_singleton, List.replicate_succ', ← h]

theorem innerRefresh_inv (f : α → Except ε (α × ρ)) (now : Nat → ℚ)
    (tdelta : ℚ → ℚ → ℚ) (n : Nat) :
    ∀ (acc : ℚ) (r : ρ) (s : S α),
      (innerRefresh f now tdelta n acc r s).2.x = s.x ∧
      (innerRefresh f now tdelta n acc r s).2.gcEnabled = s.gcEnabled ∧
      (innerRefresh f now tdelta n acc r s).2.bufAllocated = s.bufAllocated := by
  induction n with
  | zero => intro acc r s; exact ⟨rfl, rfl, rfl⟩
  | succ n ih =>
    intro acc r s
    simp only [innerRefresh]
    cases hfb : f (tick (copyto s)).buf with
    | error e => simp [recordCall, tick, copyto]
    | ok br =>
      obtain ⟨h1, h2, h3⟩ := ih (acc + tdelta (now s.clk) (now (s.clk + 1))) br.2
        (tick { recordCall (tick (copyto s)) with buf := br.1 })
      simp only [h1, h2, h3]
      simp [recordCall, tick, copyto]

theorem innerRefresh_ok_counts (f : α → Except ε (α × ρ)) (now : Nat → ℚ)
    (tdelta : ℚ → ℚ → ℚ) (n : Nat) :
    ∀ (acc : ℚ) (r : ρ) (s : S α) (p : ℚ × ρ) (s1 : S α),
      innerRefresh f now tdelta n acc r s = (Except.ok p, s1) →
      s1.trace.length = s.trace.length + n ∧ s1.clk = s.clk + 2 * n ∧
      s1.copyCount = s.copyCount + n := by
  induction n with
  | zero =>
    intro acc r s p s1 h
    rw [innerRefresh] at h
    obtain ⟨h1, h2⟩ := Prod.mk.injEq .. ▸ h
    refine ⟨?_, ?_, ?_⟩ <;> rw [← h2] <;> omega
  | succ n ih =>
    intro acc r s p s1 h
    rw [innerRefresh] at h
    cases hfb : f (tick (copyto s)).buf with
    | error e => rw [hfb] at h; simp at h
    | ok br =>
      rw [hfb] at h
      obtain ⟨h1, h2, h3⟩ := ih _ _ _ _ _ h
      refine ⟨?_, ?_, ?_⟩ <;>
        simp [recordCall, tick, copyto] at h1 h2 h3 <;> omega

theorem innerRefresh_ok_acc_le (f : α → Except ε (α × ρ)) (now : Nat → ℚ)
    (tdelta : ℚ → ℚ → ℚ) (hd : ∀ i, 0 ≤ tdelta (now i) (now (i + 1))) (n : Nat) :
    ∀ (acc : ℚ) (r : ρ) (s : S α) (p : ℚ × ρ) (s1 : S α),
      innerRefresh f now tdelta n acc r s = (Except.ok p, s1) → acc ≤ p.1 := by
  induction n with
  | zero =>
    intro acc r s p s1 h
    rw [innerRefresh] at h
    obtain ⟨h1, -⟩ := Prod.mk.injEq .. ▸ h
    obtain h1 := Except.ok.inj h1
    rw [← h1]
  | succ n ih =>
    intro acc r s p s1 h
    rw [innerRefresh] at h
    cases hfb : f (tick (copyto s)).buf with
    | error e => rw [hfb] at h; simp at h
    | ok br =>
      rw [hfb] at h
      have hrec := ih _ _ _ _ _ h
      have := hd s.clk
      linarith

theorem innerRefresh_trace_rep (f : α → Except ε (α × ρ)) (now : Nat → ℚ)
    (tdelta : ℚ → ℚ → ℚ) (n : Nat) :
    ∀ (acc : ℚ) (r : ρ) (s : S α),
      s.trace = List.replicate s.trace.length s.x →
      (innerRefresh f now tdelta n acc r s).2.trace =
        List.replicate (innerRefresh f now tdelta n acc r s).2.trace.length s.x := by
  induction n with
  | zero => intro acc r s h; exact h
  | succ n ih =>
    intro acc r s h
    simp only [innerRefresh]
    cases hfb : f (tick (copyto s)).buf with
    | error e =>
      simp only [recordCall, tick, copyto]
      exact replicate_snoc s.trace s.x h
    | ok br =>
      have hx : (tick { recordCall (tick (copyto s)) with buf := br.1 }).x = s.x := rfl
      have hcond : (tick { recordCall (tick (copyto s)) with buf := br.1 }).trace =
          List.replicate
            (tick { recordCall (tick (copyto s)) with buf := br.1 }).trace.length
            (tick { recordCall (tick (copyto s)) with buf := br.1 }).x := by
        simp only [recordCall, tick, copyto]
        exact replicate_snoc s.trace s.x h
      have hrec := ih (acc + tdelta (now s.clk) (now (s.clk + 1))) br.2
        (tick { recordCall (tick (copyto s)) with buf := br.1 }) hcond
      rw [hrec, hx, List.length_replicate]

theorem innerRefresh_not_valueError (f : α → Except ε (α × ρ)) (now : Nat → ℚ)
    (tdelta : ℚ → ℚ → ℚ) (n : Nat) :
    ∀ (acc : ℚ) (r : ρ) (s : S α),
      (innerRefresh f now tdelta n acc r s).1 ≠ Except.error PyErr.valueError := by
  induction n with
  | zero => intro acc r s h; simp [innerRefresh] at h
  | succ n ih =>
    intro acc r s
    simp only [innerRefresh]
    cases hfb : f (tick (copyto s)).buf with
    | error e => simp
    | ok br => exact ih _ _ _

theorem innerNoRefresh_inv (f : α → Except ε (α × ρ)) (n : Nat) :
    ∀ (r : ρ) (s : S α),
      (innerNoRefresh f n r s).2.x = s.x ∧
      (innerNoRefresh f n r s).2.gcEnabled = s.gcEnabled ∧
      (innerNoRefresh f n r s).2.bufAllocated = s.bufAllocated ∧
      (innerNoRefresh f n r s).2.clk = s.clk ∧
      (innerNoRefresh f n r s).2.copyCount = s.copyCount := by
  induction n with
  | zero => intro r s; exact ⟨rfl, rfl, rfl, rfl, rfl⟩
  | succ n ih =>
    intro r s
    simp only [innerNoRefresh]
    cases hfb : f s.buf with
    | error e => simp [recordCall]
    | ok br =>
      obtain ⟨h1, h2, h3, h4, h5⟩ := ih br.2 { recordCall s with buf := br.1 }
      simp only [h1, h2, h3, h4, h5]
      simp [recordCall]

theorem innerNoRefresh_ok_trace (f : α → Except ε (α × ρ)) (n : Nat) :
    ∀ (r : ρ) (s : S α) (r1 : ρ) (s1 : S α),
      innerNoRefresh f n r s = (Except.ok r1, s1) →
      s1.trace.length = s.trace.length + n := by
  induction n with
  | zero =>
    intro r s r1 s1 h
    rw [innerNoRefresh] at h
    obtain ⟨-, h2⟩ := Prod.mk.injEq .. ▸ h
    rw [← h2]
    omega
  | succ n ih =>
    intro r s r1 s1 h
    rw [innerNoRefresh] at h
    cases hfb : f s.buf with
    | error e => rw [hfb] at h; simp at h
    | ok br =>
      rw [hfb] at h
      have hrec := ih _ _ _ _ h
      simp [recordCall] at hrec
      omega

theorem innerNoRefresh_not_valueError (f : α → Except ε (α × ρ)) (n : Nat) :
    ∀ (r : ρ) (s : S α),
      (innerNoRefresh f n r s).1 ≠ Except.error PyErr.valueError := by
  induction n with
  | zero => intro r s h; simp [innerNoRefresh] at h
  | succ n ih =>
    intro r s
    simp only [innerNoRefresh]
    cases hfb : f s.buf with
    | error e => simp
    | ok br => exact ih _ _

theorem innerNoRefresh_trace_append (f : α → Except ε (α × ρ)) (n : Nat) :
    ∀ (r : ρ) (s : S α),
      ∃ tl, (innerNoRefresh f n r s).2.trace = s.trace ++ tl := by
  induction n with
  | zero => intro r s; exact ⟨[], by simp [innerNoRefresh]⟩
  | succ n ih =>
    intro r s
    simp only [innerNoRefresh]
    cases hfb : f s.buf with
    | error e => exact ⟨[s.buf], by simp [recordCall]⟩
    | ok br =>
      obtain ⟨tl, htl⟩ := ih br.2 { recordCall s with buf := br.1 }
      refine ⟨[s.buf] ++ tl, ?_⟩
      rw [htl]
      simp [recordCall]

theorem innerRefresh_trace_append (f : α → Except ε (α × ρ)) (now : Nat → ℚ)
    (tdelta : ℚ → ℚ → ℚ) (n : Nat) :
    ∀ (acc : ℚ) (r : ρ) (s : S α),
      ∃ tl, (innerRefresh f now tdelta n acc r s).2.trace = s.trace ++ tl := by
  induction n with
  | zero => intro acc r s; exact ⟨[], by simp [innerRefresh]⟩
  | succ n ih =>
    intro acc r s
    simp only [innerRefresh]
    cases hfb : f (tick (copyto s)).buf with
    | error e => exact ⟨[s.x], by simp [recordCall, tick, copyto]⟩
    | ok br =>
      obtain ⟨tl, htl⟩ := ih (acc + tdelta (now s.clk) (now (s.clk + 1))) br.2
        (tick { recordCall (tick (copyto s)) with buf := br.1 })
      refine ⟨[s.x] ++ tl, ?_⟩
      rw [htl]
      simp [recordCall, tick, copyto]

theorem outerLoop_inv (f : α → Except ε (α × ρ)) (now : Nat → ℚ)
    (tdelta : ℚ → ℚ → ℚ) (refresh : Bool) (absz : ℤ) (n : Nat) :
    ∀ (acc : List ℚ) (r : ρ) (s : S α),
      (outerLoop f now tdelta refresh absz n acc r s).2.x = s.x ∧
      (outerLoop f now tdelta refresh absz n acc r s).2.gcEnabled = s.gcEnabled ∧
      (outerLoop f now tdelta refresh absz n acc r s).2.bufAllocated = s.bufAllocated := by
  induction n with
  | zero => intro acc r s; exact ⟨rfl, rfl, rfl⟩
  | succ n ih =>
    intro acc r s
    simp only [outerLoop]
    cases refresh with
    | true =>
      rw [if_pos rfl]
      rcases hI : innerRefresh f now tdelta absz.toNat 0 r s with ⟨out, s1⟩
      have hs1 := innerRefresh_inv f now tdelta absz.toNat 0 r s
      rw [hI] at hs1
      cases out with
      | error e => exact hs1
      | ok tr =>
        obtain ⟨i1, i2, i3⟩ := ih (acc ++ [tr.1 / (absz : ℚ)]) tr.2 s1
        exact ⟨i1.trans hs1.1, i2.trans hs1.2.1, i3.trans hs1.2.2⟩
    | false =>
      rw [if_neg (by simp)]
      rcases hI : innerNoRefresh f absz.toNat r (tick s) with ⟨out, s1⟩
      have hs1 := innerNoRefresh_inv f absz.toNat r (tick s)
      rw [hI] at hs1
      cases out with
      | error e => exact ⟨hs1.1, hs1.2.1, hs1.2.2.1⟩
      | ok r1 =>
        obtain ⟨i1, i2, i3⟩ := ih (acc ++ [tdelta (now s.clk) (now s1.clk) / (absz : ℚ)]) r1 (tick s1)
        refine ⟨i1.trans hs1.1, i2.trans hs1.2.1, i3.trans hs1.2.2.1⟩

theorem outerLoop_ok_counts (f : α → Except ε (α × ρ)) (now : Nat → ℚ)
    (tdelta : ℚ → ℚ → ℚ) (refresh : Bool) (absz : ℤ) (n : Nat) :
    ∀ (acc : List ℚ) (r : ρ) (s : S α) (p : List ℚ × ρ) (s1 : S α),
      outerLoop f now tdelta refresh absz n acc r s = (Except.ok p, s1) →
      s1.trace.length = s.trace.length + n * absz.toNat ∧
      p.1.length = acc.length + n := by
  induction n with
  | zero =>
    intro acc r s p s1 h
    rw [outerLoop] at h
    obtain ⟨h1, h2⟩ := Prod.mk.injEq .. ▸ h
    obtain h1 := Except.ok.inj h1
    refine ⟨by rw [← h2]; omega, ?_⟩
    rw [← h1]
    simp
  | succ n ih =>
    intro acc r s p s1 h
    rw [outerLoop] at h
    cases refresh with
    | true =>
      rw [if_pos rfl] at h
      rcases hI : innerRefresh f now tdelta absz.toNat 0 r s with ⟨out, s1x⟩
      rw [hI] at h
      cases out with
      | error e => simp at h
      | ok tr =>
        obtain ⟨c1, c2⟩ := ih _ _ _ _ _ h
        obtain ⟨t1, -, -⟩ := innerRefresh_ok_counts f now tdelta absz.toNat 0 r s tr s1x hI
        have hm : (n + 1) * absz.toNat = n * absz.toNat + absz.toNat := by ring
        refine ⟨by rw [hm]; omega, ?_⟩
        rw [c2, List.length_append, List.length_singleton]
        omega
    | false =>
      rw [if_neg (by simp)] at h
      rcases hI : innerNoRefresh f absz.toNat r (tick s) with ⟨out, s1x⟩
      rw [hI] at h
      cases out with
      | error e => simp at h
      | ok r1 =>
        obtain ⟨c1, c2⟩ := ih _ _ _ _ _ h
        have t1 := innerNoRefresh_ok_trace f absz.toNat r (tick s) r1 s1x hI
        have htick : (tick s).trace.length = s.trace.length := rfl
        have htick2 : (tick s1x).trace.length = s1x.trace.length := rfl
        have hm : (n + 1) * absz.toNat = n * absz.toNat + absz.toNat := by ring
        refine ⟨by rw [c1, htick2, hm]; omega, ?_⟩
        rw [c2, List.length_append, List.length_singleton]
        omega

theorem outerLoop_ok_nonneg (f : α → Except ε (α × ρ)) (now : Nat → ℚ)
    (tdelta : ℚ → ℚ → ℚ) (refresh : Bool) (absz : ℤ)
    (hd : ∀ i, 0 ≤ tdelta (now i) (now (i + 1))) (habs : 0 ≤ (absz : ℚ)) (n : Nat) :
    ∀ (acc : List ℚ) (r : ρ) (s : S α) (p : List ℚ × ρ) (s1 : S α),
      outerLoop f now tdelta refresh absz n acc r s = (Except.ok p, s1) →
      (∀ t ∈ acc, 0 ≤ t) → ∀ t ∈ p.1, 0 ≤ t := by
  induction n with
  | zero =>
    intro acc r s p s1 h hacc
    rw [outerLoop] at h
    obtain ⟨h1, -⟩ := Prod.mk.injEq .. ▸ h
    obtain h1 := Except.ok.inj h1
    rw [← h1]
    exact hacc
  | succ n ih =>
    intro acc r s p s1 h hacc
    rw [outerLoop] at h
    cases refresh with
    | true =>
      rw [if_pos rfl] at h
      rcases hI : innerRefresh f now tdelta absz.toNat 0 r s with ⟨out, s1x⟩
      rw [hI] at h
      cases out with
      | error e => simp at h
      | ok tr =>
        refine ih _ _ _ _ _ h ?_
        intro t ht
        rcases List.mem_append.mp ht with hl | hr
        · exact hacc t hl
        · rw [List.mem_singleton] at hr
          rw [hr]
          have h0 := innerRefresh_ok_acc_le f now tdelta hd absz.toNat 0 r s tr s1x hI
          exact div_nonneg h0 habs
    | false =>
      rw [if_neg (by simp)] at h
      rcases hI : innerNoRefresh f absz.toNat r (tick s) with ⟨out, s1x⟩
      rw [hI] at h
      cases out with
      | error e => simp at h
      | ok r1 =>
        refine ih _ _ _ _ _ h ?_
        intro t ht
        rcases List.mem_append.mp ht with hl | hr
        · exact hacc t hl
        · rw [List.mem_singleton] at hr
          rw [hr]
          have hclk : s1x.clk = s.clk + 1 := by
            have hi := innerNoRefresh_inv f absz.toNat r (tick s)
            rw [hI] at hi
            exact hi.2.2.2.1
          rw [hclk]
          exact div_nonneg (hd s.clk) habs

theorem outerLoop_trace_rep (f : α → Except ε (α × ρ)) (now : Nat → ℚ)
    (tdelta : ℚ → ℚ → ℚ) (absz : ℤ) (n : Nat) :
    ∀ (acc : List ℚ) (r : ρ) (s : S α),
      s.trace = List.replicate s.trace.length s.x →
      (outerLoop f now tdelta true absz n acc r s).2.trace =
        List.replicate (outerLoop f now tdelta true absz n acc r s).2.trace.length s.x := by
  induction n with
  | zero => intro acc r s h; exact h
  | succ n ih =>
    intro acc r s h
    simp only [outerLoop]
    rw [if_pos (by trivial)]
    rcases hI : innerRefresh f now tdelta absz.toNat 0 r s with ⟨out, s1x⟩
    have htr := innerRefresh_trace_rep f now tdelta absz.toNat 0 r s h
    have hxx := innerRefresh_inv f now tdelta absz.toNat 0 r s
    rw [hI] at htr hxx
    cases out with
    | error e => exact htr
    | ok tr =>
      have hcond : s1x.trace = List.replicate s1x.trace.length s1x.x := by
        rw [hxx.1]
        exact htr
      have hrec := ih (acc ++ [tr.1 / (absz : ℚ)]) tr.2 s1x hcond
      rw [hrec, hxx.1, List.length_replicate]

theorem outerLoop_norefresh_copyCount (f : α → Except ε (α × ρ)) (now : Nat → ℚ)
    (tdelta : ℚ → ℚ → ℚ) (absz : ℤ) (n : Nat) :
    ∀ (acc : List ℚ) (r : ρ) (s : S α),
      (outerLoop f now tdelta false absz n acc r s).2.copyCount = s.copyCount := by
  induction n with
  | zero => intro acc r s; rfl
  | succ n ih =>
    intro acc r s
    simp only [outerLoop]
    rw [if_neg (by simp)]
    rcases hI : innerNoRefresh f absz.toNat r (tick s) with ⟨out, s1x⟩
    have hi := innerNoRefresh_inv f absz.toNat r (tick s)
    rw [hI] at hi
    cases out with
    | error e => exact hi.2.2.2.2
    | ok r1 =>
      have hrec := ih (acc ++ [tdelta (now s.clk) (now s1x.clk) / (absz : ℚ)]) r1 (tick s1x)
      rw [hrec]
      exact hi.2.2.2.2

theorem outerLoop_norefresh_times (f : α → Except ε (α × ρ)) (now : Nat → ℚ)
    (tdelta : ℚ → ℚ → ℚ) (absz : ℤ) (n : Nat) :
    ∀ (acc : List ℚ) (r : ρ) (s : S α) (p : List ℚ × ρ) (s1 : S α),
      outerLoop f now tdelta false absz n acc r s = (Except.ok p, s1) →
      p.1 = acc ++ (List.range n).map
        (fun i => tdelta (now (s.clk + 2 * i)) (now (s.clk + 2 * i + 1)) / (absz : ℚ)) := by
  induction n with
  | zero =>
    intro acc r s p s1 h
    rw [outerLoop] at h
    obtain ⟨h1, -⟩ := Prod.mk.injEq .. ▸ h
    obtain h1 := Except.ok.inj h1
    rw [← h1]
    simp
  | succ n ih =>
    intro acc r s p s1 h
    rw [outerLoop] at h
    rw [if_neg (by simp)] at h
    rcases hI : innerNoRefresh f absz.toNat r (tick s) with ⟨out, s1x⟩
    rw [hI] at h
    cases out with
    | error e => simp at h
    | ok r1 =>
      have hclk : s1x.clk = s.clk + 1 := by
        have hi := innerNoRefresh_inv f absz.toNat r (tick s)
        rw [hI] at hi
        exact hi.2.2.2.1
      have hclk2 : (tick s1x).clk = s.clk + 2 := by
        simp only [tick, hclk]
      have hrec := ih _ _ _ _ _ h
      rw [hclk2] at hrec
      rw [hrec, hclk]
      rw [List.range_succ_eq_map, List.map_cons, List.map_map, List.append_assoc]
      simp only [Nat.mul_zero, Nat.add_zero, List.singleton_append, Function.comp]
      congr 2
      apply List.map_congr_left
      intro i hi
      simp only [Function.comp_apply, Nat.succ_eq_add_one]
      have e1 : s.clk + 2 + 2 * i = s.clk + 2 * (i + 1) := by omega
      rw [e1]

theorem outerLoop_not_valueError (f : α → Except ε (α × ρ)) (now : Nat → ℚ)
    (tdelta : ℚ → ℚ → ℚ) (refresh : Bool) (absz : ℤ) (n : Nat) :
    ∀ (acc : List ℚ) (r : ρ) (s : S α),
      (outerLoop f now tdelta refresh absz n acc r s).1 ≠ Except.error PyErr.valueError := by
  induction n with
  | zero => intro acc r s h; simp [outerLoop] at h
  | succ n ih =>
    intro acc r s
    simp only [outerLoop]
    cases refresh with
    | true =>
      rw [if_pos rfl]
      rcases hI : innerRefresh f now tdelta absz.toNat 0 r s with ⟨out, s1x⟩
      have hnv := innerRefresh_not_valueError f now tdelta absz.toNat 0 r s
      rw [hI] at hnv
      cases out with
      | error e => simpa using hnv
      | ok tr => exact ih _ _ _
    | false =>
      rw [if_neg (by simp)]
      rcases hI : innerNoRefresh f absz.toNat r (tick s) with ⟨out, s1x⟩
      have hnv := innerNoRefresh_not_valueError f absz.toNat r (tick s)
      rw [hI] at hnv
      cases out with
      | error e => simpa using hnv
      | ok r1 => exact ih _ _ _

theorem outerLoop_trace_append (f : α → Except ε (α × ρ)) (now : Nat → ℚ)
    (tdelta : ℚ → ℚ → ℚ) (refresh : Bool) (absz : ℤ) (n : Nat) :
    ∀ (acc : List ℚ) (r : ρ) (s : S α),
      ∃ tl, (outerLoop f now tdelta refresh absz n acc r s).2.trace = s.trace ++ tl := by
  induction n with
  | zero => intro acc r s; exact ⟨[], by simp [outerLoop]⟩
  | succ n ih =>
    intro acc r s
    simp only [outerLoop]
    cases refresh with
    | true =>
      rw [if_pos rfl]
      rcases hI : innerRefresh f now tdelta absz.toNat 0 r s with ⟨out, s1x⟩
      obtain ⟨tl1, htl1⟩ := innerRefresh_trace_append f now tdelta absz.toNat 0 r s
      rw [hI] at htl1
      cases out with
      | error e => exact ⟨tl1, htl1⟩
      | ok tr =>
        obtain ⟨tl2, htl2⟩ := ih (acc ++ [tr.1 / (absz : ℚ)]) tr.2 s1x
        exact ⟨tl1 ++ tl2, by rw [htl2, htl1, List.append_assoc]⟩
    | false =>
      rw [if_neg (by simp)]
      rcases hI : innerNoRefresh f absz.toNat r (tick s) with ⟨out, s1x⟩
      obtain ⟨tl1, htl1⟩ := innerNoRefresh_trace_append f absz.toNat r (tick s)
      rw [hI] at htl1
      have htick : (tick s).trace = s.trace := rfl
      cases out with
      | error e => exact ⟨tl1, by rw [htl1, htick]⟩
      | ok r1 =>
        obtain ⟨tl2, htl2⟩ := ih (acc ++ [tdelta (now s.clk) (now s1x.clk) / (absz : ℚ)]) r1 (tick s1x)
        have htick2 : (tick s1x).trace = s1x.trace := rfl
        exact ⟨tl1 ++ tl2, by rw [htl2, htick2, htl1, htick, List.append_assoc]⟩

theorem innerRefresh_ok_lastCall (f : α → Except ε (α × ρ)) (now : Nat → ℚ)
    (tdelta : ℚ → ℚ → ℚ) (n : Nat) :
    ∀ (acc : ℚ) (r : ρ) (s : S α) (p : ℚ × ρ) (s1 : S α),
      innerRefresh f now tdelta n acc r s = (Except.ok p, s1) →
      lastCallResult f s r → lastCallResult f s1 p.2 := by
  induction n with
  | zero =>
    intro acc r s p s1 h hl
    rw [innerRefresh] at h
    obtain ⟨h1, h2⟩ := Prod.mk.injEq .. ▸ h
    obtain h1 := Except.ok.inj h1
    rw [← h1, ← h2]
    exact hl
  | succ n ih =>
    intro acc r s p s1 h hl
    rw [innerRefresh] at h
    cases hfb : f (tick (copyto s)).buf with
    | error e => rw [hfb] at h; simp at h
    | ok br =>
      rw [hfb] at h
      refine ih _ _ _ _ _ h ?_
      refine ⟨(tick (copyto s)).buf, ?_, ?_⟩
      · show ((tick (copyto s)).trace ++ [(tick (copyto s)).buf]).getLast? =
          some (tick (copyto s)).buf
        exact List.getLast?_concat _
      · rw [hfb]; rfl

theorem innerNoRefresh_ok_lastCall (f : α → Except ε (α × ρ)) (n : Nat) :
    ∀ (r : ρ) (s : S α) (r1 : ρ) (s1 : S α),
      innerNoRefresh f n r s = (Except.ok r1, s1) →
      lastCallResult f s r → lastCallResult f s1 r1 := by
  induction n with
  | zero =>
    intro r s r1 s1 h hl
    rw [innerNoRefresh] at h
    obtain ⟨h1, h2⟩ := Prod.mk.injEq .. ▸ h
    obtain h1 := Except.ok.inj h1
    rw [← h1, ← h2]
    exact hl
  | succ n ih =>
    intro r s r1 s1 h hl
    rw [innerNoRefresh] at h
    cases hfb : f s.buf with
    | error e => rw [hfb] at h; simp at h
    | ok br =>
      rw [hfb] at h
      refine ih _ _ _ _ h ?_
      refine ⟨s.buf, ?_, ?_⟩
      · show (s.trace ++ [s.buf]).getLast? = some s.buf
        exact List.getLast?_concat _
      · rw [hfb]; rfl

theorem outerLoop_ok_lastCall (f : α → Except ε (α × ρ)) (now : Nat → ℚ)
    (tdelta : ℚ → ℚ → ℚ) (refresh : Bool) (absz : ℤ) (n : Nat) :
    ∀ (acc : List ℚ) (r : ρ) (s : S α) (p : List ℚ × ρ) (s1 : S α),
      outerLoop f now tdelta refresh absz n acc r s = (Except.ok p, s1) →
      lastCallResult f s r → lastCallResult f s1 p.2 := by
  induction n with
  | zero =>
    intro acc r s p s1 h hl
    rw [outerLoop] at h
    obtain ⟨h1, h2⟩ := Prod.mk.injEq .. ▸ h
    obtain h1 := Except.ok.inj h1
    rw [← h1, ← h2]
    exact hl
  | succ n ih =>
    intro acc r s p s1 h hl
    rw [outerLoop] at h
    cases refresh with
    | true =>
      rw [if_pos rfl] at h
      rcases hI : innerRefresh f now tdelta absz.toNat 0 r s with ⟨out, s1x⟩
      rw [hI] at h
      cases out with
      | error e => simp at h
      | ok tr =>
        exact ih _ _ _ _ _ h
          (innerRefresh_ok_lastCall f now tdelta absz.toNat 0 r s tr s1x hI hl)
    | false =>
      rw [if_neg (by simp)] at h
      rcases hI : innerNoRefresh f absz.toNat r (tick s) with ⟨out, s1x⟩
      rw [hI] at h
      cases out with
      | error e => simp at h
      | ok r1 =>
        have hl2 : lastCallResult f (tick s) r := hl
        have hl3 := innerNoRefresh_ok_lastCall f absz.toNat r (tick s) r1 s1x hI hl2
        have hl4 : lastCallResult f (tick s1x) r1 := hl3
        exact ih _ _ _ _ _ h hl4

/-! ## Claim theorems -/

/-- C8: `time_func` never mutates the input array `x`: the harness only
reads `x` as the source of buffer refreshes and passes only the working
buffer to the candidate, so the content of `x` after the run equals its
content before, for every refresh discipline, on every exit path. -/
theorem time_func_preserves_input (f : α → Except ε (α × ρ)) (now : Nat → ℚ)
    (tdelta : ℚ → ℚ → ℚ) (x bufInit : α) (xIsArray kwIsDict gc0 : Bool)
    (batch_size : ℤ) (repetitions : Nat) (refresh_buffer : Bool) :
    (time_func f now tdelta x bufInit xIsArray kwIsDict gc0 batch_size
      repetitions refresh_buffer).2.x = x := by
  rw [time_func]
  by_cases hx : xIsArray = false
  · rw [if_pos hx]; rfl
  · rw [if_neg hx]
    by_cases hk : kwIsDict = false
    · rw [if_pos hk]; rfl
    · rw [if_neg hk]
      cases hfb : f (warmState x bufInit gc0).buf with
      | error e => rfl
      | ok br =>
        rcases hO : outerLoop f now tdelta refresh_buffer
            (actual_batch_size (tdelta (now 0) (now 1)) batch_size)
            repetitions [] br.2
            (tick { recordCall (warmState x bufInit gc0) with buf := br.1 }) with ⟨out2, s3⟩
        have hinv := outerLoop_inv f now tdelta refresh_buffer
            (actual_batch_size (tdelta (now 0) (now 1)) batch_size)
            repetitions [] br.2
            (tick { recordCall (warmState x bufInit gc0) with buf := br.1 })
        rw [hO] at hinv
        dsimp only
        rw [hO]
        cases out2 with
        | error e => exact hinv.1
        | ok tsr => exact hinv.1

/-- C1 (amended): the garbage-collector flag after `time_func` is `true`
whenever the run returns normally (regardless of the state on entry), is
left `false` when the candidate's exception propagates (no try/finally in
the source), and equals the entry state only on the `ValueError` path,
which never touches the collector. -/
theorem gc_state_after_time_func (f : α → Except ε (α × ρ)) (now : Nat → ℚ)
    (tdelta : ℚ → ℚ → ℚ) (x bufInit : α) (xIsArray kwIsDict gc0 : Bool)
    (batch_size : ℤ) (repetitions : Nat) (refresh_buffer : Bool) :
    (time_func f now tdelta x bufInit xIsArray kwIsDict gc0 batch_size
      repetitions refresh_buffer).2.gcEnabled =
      match (time_func f now tdelta x bufInit xIsArray kwIsDict gc0 batch_size
        repetitions refresh_buffer).1 with
      | Except.ok _ => true
      | Except.error PyErr.valueError => gc0
      | Except.error (PyErr.exc _) => false := by
  rw [time_func]
  by_cases hx : xIsArray = false
  · rw [if_pos hx]; rfl
  · rw [if_neg hx]
    by_cases hk : kwIsDict = false
    · rw [if_pos hk]; rfl
    · rw [if_neg hk]
      cases hfb : f (warmState x bufInit gc0).buf with
      | error e => rfl
      | ok br =>
        rcases hO : outerLoop f now tdelta refresh_buffer
            (actual_batch_size (tdelta (now 0) (now 1)) batch_size)
            repetitions [] br.2
            (tick { recordCall (warmState x bufInit gc0) with buf := br.1 }) with ⟨out2, s3⟩
        have hinv := outerLoop_inv f now tdelta refresh_buffer
            (actual_batch_size (tdelta (now 0) (now 1)) batch_size)
            repetitions [] br.2
            (tick { recordCall (warmState x bufInit gc0) with buf := br.1 })
        have hnv := outerLoop_not_valueError f now tdelta refresh_buffer
            (actual_batch_size (tdelta (now 0) (now 1)) batch_size)
            repetitions [] br.2
            (tick { recordCall (warmState x bufInit gc0) with buf := br.1 })
        rw [hO] at hinv hnv
        dsimp only
        rw [hO]
        cases out2 with
        | error e =>
          cases e with
          | valueError => exact absurd rfl hnv
          | exc e0 => exact hinv.2.1
        | ok tsr => rfl

/-- C1 (counterexample to the claim as stated): with the collector enabled
on entry and a candidate that raises, `time_func` propagates the exception
with the collector left disabled, so the state after the call differs from
the state before it. -/
theorem gc_left_disabled_on_exception :
    (time_func fRaise nowZero tdZero 0 0 true true true 16 24 true).1 =
      Except.error (PyErr.exc 0) ∧
    (time_func fRaise nowZero tdZero 0 0 true true true 16 24 true).2.gcEnabled = false :=
  ⟨rfl, rfl⟩

/-- C5: when `x` is not a numpy array or the keywords are not a
dictionary, `time_func` raises `ValueError` (the specification's
`InvalidArgument`) eagerly: the returned state is exactly the entry state,
with no buffer allocated, no copy performed, no timer sample taken and no
call of the candidate. -/
theorem invalid_argument_checked_eagerly (f : α → Except ε (α × ρ))
    (now : Nat → ℚ) (tdelta : ℚ → ℚ → ℚ) (x bufInit : α)
    (xIsArray kwIsDict gc0 : Bool) (batch_size : ℤ) (repetitions : Nat)
    (refresh_buffer : Bool) (h : xIsArray = false ∨ kwIsDict = false) :
    time_func f now tdelta x bufInit xIsArray kwIsDict gc0 batch_size
      repetitions refresh_buffer =
      (Except.error PyErr.valueError, initState x bufInit gc0) := by
  rw [time_func]
  rcases h with h | h
  · rw [if_pos h]
  · by_cases hx : xIsArray = false
    · rw [if_pos hx]
    · rw [if_neg hx, if_pos h]

/-- C5 witness: a run with a non-array `x` (first check false). -/
theorem invalid_argument_checked_eagerly_witness :
    (false = false ∨ true = false) ∧
    time_func fKeep nowZero tdZero 7 0 false true true 16 24 true =
      (Except.error PyErr.valueError, initState 7 0 true) :=
  ⟨Or.inl rfl,
    invalid_argument_checked_eagerly fKeep nowZero tdZero 7 0 false true true
      16 24 true (Or.inl rfl)⟩

/-- C2: for a requested batch size of at least 1, the effective batch size
is `1 + ⌊5 / L⌋` when the warm-up latency `L` satisfies `L * batch_size >
5` and the requested batch size otherwise (Python's `int()` truncation
agrees with the floor because the guard forces `L > 0`). -/
theorem adaptive_batch_size_formula (L : ℚ) (bs : ℤ) (hbs : 1 ≤ bs) :
    actual_batch_size L bs =
      if 5 < L * (bs : ℚ) then 1 + ⌊(5 : ℚ) / L⌋ else bs := by
  rw [actual_batch_size]
  by_cases hg : 5 < L * (bs : ℚ)
  · rw [if_pos hg, if_pos hg, pyInt_eq_floor]
    have hL := pos_of_guard L bs hbs hg
    positivity
  · rw [if_neg hg, if_neg hg]

/-- C2 witness: the specification's scenario, warm-up latency 0.5 s and
requested batch size 20 give an effective batch size of 11. -/
theorem adaptive_batch_size_formula_witness :
    (1 ≤ (20 : ℤ)) ∧ actual_batch_size (1 / 2) 20 = 11 := by
  refine ⟨by norm_num, ?_⟩
  rw [adaptive_batch_size_formula (1 / 2) 20 (by norm_num)]
  rw [if_pos (by norm_num)]
  norm_num

/-- C9: with a requested batch size of at least 1, the recalibration guard
`time_tot * batch_size > 5` forces `time_tot > 0`, so `5 / time_tot` never
divides by zero, and the effective batch size is always at least 1. -/
theorem batch_calibration_guard_division_safe (L : ℚ) (bs : ℤ) (hbs : 1 ≤ bs) :
    (5 < L * (bs : ℚ) → 0 < L) ∧ 1 ≤ actual_batch_size L bs :=
  ⟨pos_of_guard L bs hbs, actual_batch_size_pos L bs hbs⟩

/-- C9 witness: a zero warm-up latency with the default batch size 16: the
guard is false and the effective batch size stays 16. -/
theorem batch_calibration_guard_division_safe_witness :
    (1 ≤ (16 : ℤ)) ∧
    ((5 < (0 : ℚ) * ((16 : ℤ) : ℚ) → (0 : ℚ) < 0) ∧
      1 ≤ actual_batch_size 0 16) :=
  ⟨by norm_num, batch_calibration_guard_division_safe 0 16 (by norm_num)⟩

/-- C7: `get_timer` selects the first available module of the preference
list (the semantics of the import loop is `List.find?`), and when no
module of the list is available it fails with the specification's
`UnavailableClock` error instead of producing a timer. -/
theorem get_timer_first_available_or_unavailable (avail : String → Bool)
    (mods : List String) :
    (get_timer avail mods =
      match mods.find? avail with
      | some n =>
        if n = "itimer" ∨ n = "timeit" ∨ n = "time" then Except.ok n
        else Except.error TimerErr.keyError
      | none => Except.error TimerErr.unavailableClock) ∧
    (allUnavailable avail mods = true →
      get_timer avail mods = Except.error TimerErr.unavailableClock) := by
  constructor
  · rw [get_timer, pickTimerName_eq_find]
    cases hfind : List.find? avail mods <;> rfl
  · intro h
    rw [get_timer, pickTimerName_eq_find]
    have hnone : mods.find? avail = none := by
      rw [List.find?_eq_none]
      intro m hm
      have hm2 := List.all_eq_true.mp h m hm
      simp at hm2
      simp [hm2]
    rw [hnone]

/-- C7 witness: with no module available, `get_timer` on the default
preference list fails with `UnavailableClock`. -/
theorem get_timer_first_available_or_unavailable_witness :
    allUnavailable availNone time_modules = true ∧
    get_timer availNone time_modules = Except.error TimerErr.unavailableClock :=
  ⟨by decide,
    (get_timer_first_available_or_unavailable availNone time_modules).2 (by decide)⟩

/-- C3: with `refresh_buffer = true` (and valid arguments) every buffer
content the candidate observes — at the warm-up call and at every batched
call of every repetition — equals the input `x`: the whole call trace is a
constant list of copies of `x`, on every exit path. -/
theorem refresh_buffer_trace_all_eq_input (f : α → Except ε (α × ρ))
    (now : Nat → ℚ) (tdelta : ℚ → ℚ → ℚ) (x bufInit : α) (gc0 : Bool)
    (batch_size : ℤ) (repetitions : Nat) :
    (time_func f now tdelta x bufInit true true gc0 batch_size repetitions
      true).2.trace =
      List.replicate
        (time_func f now tdelta x bufInit true true gc0 batch_size repetitions
          true).2.trace.length x := by
  rw [time_func, if_neg (by simp), if_neg (by simp)]
  cases hfb : f (warmState x bufInit gc0).buf with
  | error e => rfl
  | ok br =>
    rcases hO : outerLoop f now tdelta true
        (actual_batch_size (tdelta (now 0) (now 1)) batch_size)
        repetitions [] br.2
        (tick { recordCall (warmState x bufInit gc0) with buf := br.1 }) with ⟨out2, s3⟩
    have hrep := outerLoop_trace_rep f now tdelta
        (actual_batch_size (tdelta (now 0) (now 1)) batch_size)
        repetitions [] br.2
        (tick { recordCall (warmState x bufInit gc0) with buf := br.1 }) rfl
    rw [hO] at hrep
    dsimp only
    rw [hO]
    cases out2 with
    | error e => exact hrep
    | ok tsr => exact hrep

/-- C10: on normal return the candidate was called exactly
`1 + repetitions * effective_batch_size` times (warm-up plus the measured
batches); with `repetitions = 0` the candidate is still called once, the
measurement series is empty and the returned result is the warm-up call's
result. -/
theorem time_func_call_count (f : α → Except ε (α × ρ)) (now : Nat → ℚ)
    (tdelta : ℚ → ℚ → ℚ) (x bufInit : α) (gc0 : Bool) (batch_size : ℤ)
    (repetitions : Nat) (refresh_buffer : Bool) (ts : List ℚ) (res : ρ)
    (hok : (time_func f now tdelta x bufInit true true gc0 batch_size
      repetitions refresh_buffer).1 = Except.ok (ts, res)) :
    (time_func f now tdelta x bufInit true true gc0 batch_size repetitions
      refresh_buffer).2.trace.length =
      1 + repetitions *
        (actual_batch_size (tdelta (now 0) (now 1)) batch_size).toNat ∧
    (repetitions = 0 → ts = [] ∧ Except.map Prod.snd (f x) = Except.ok res) := by
  rw [time_func, if_neg (by simp), if_neg (by simp)] at hok ⊢
  cases hfb : f (warmState x bufInit gc0).buf with
  | error e => rw [hfb] at hok; simp at hok
  | ok br =>
    rw [hfb] at hok
    dsimp only at hok
    dsimp only
    rcases hO : outerLoop f now tdelta refresh_buffer
        (actual_batch_size (tdelta (now 0) (now 1)) batch_size) repetitions
        [] br.2 (tick { recordCall (warmState x bufInit gc0) with buf := br.1 })
      with ⟨out2, s3⟩
    rw [hO] at hok
    cases out2 with
    | error e => simp at hok
    | ok tsr =>
      dsimp only
      have htsr : tsr = (ts, res) := by simpa using hok
      obtain ⟨c1, c2⟩ := outerLoop_ok_counts f now tdelta refresh_buffer
          (actual_batch_size (tdelta (now 0) (now 1)) batch_size) repetitions
          [] br.2 (tick { recordCall (warmState x bufInit gc0) with buf := br.1 })
          tsr s3 hO
      constructor
      · have hstart : (tick { recordCall (warmState x bufInit gc0) with
            buf := br.1 }).trace.length = 1 := rfl
        rw [hstart] at c1
        have hg : (gcEnable s3).trace.length = s3.trace.length := rfl
        rw [hg, c1]
      · intro h0
        subst h0
        rw [outerLoop] at hO
        obtain ⟨hA, -⟩ := Prod.mk.injEq .. ▸ hO
        obtain hA := Except.ok.inj hA
        rw [htsr] at hA
        obtain ⟨hts, hres⟩ := Prod.mk.injEq .. ▸ hA
        refine ⟨hts.symm, ?_⟩
        have hfx : f x = Except.ok br := hfb
        rw [hfx]
        rw [show Except.map Prod.snd (Except.ok br) = Except.ok br.2 from rfl, hres]

/-- C4: on normal return with a requested batch size of at least 1,
`time_func` produces exactly `repetitions` measurements, each non-negative
whenever the timer's delta between samples taken in order is non-negative,
together with the result value of the final call of the candidate: the
returned `res` is what `f` returns on the last buffer content handed to
it. -/
theorem time_func_measurement_series (f : α → Except ε (α × ρ))
    (now : Nat → ℚ) (tdelta : ℚ → ℚ → ℚ) (x bufInit : α) (gc0 : Bool)
    (batch_size : ℤ) (repetitions : Nat) (refresh_buffer : Bool)
    (hbs : 1 ≤ batch_size) (hd : ∀ i, 0 ≤ tdelta (now i) (now (i + 1)))
    (ts : List ℚ) (res : ρ)
    (hok : (time_func f now tdelta x bufInit true true gc0 batch_size
      repetitions refresh_buffer).1 = Except.ok (ts, res)) :
    ts.length = repetitions ∧ allNonneg ts = true ∧
    lastCallResult f
      (time_func f now tdelta x bufInit true true gc0 batch_size repetitions
        refresh_buffer).2 res := by
  rw [time_func, if_neg (by simp), if_neg (by simp)] at hok ⊢
  cases hfb : f (warmState x bufInit gc0).buf with
  | error e => rw [hfb] at hok; simp at hok
  | ok br =>
    rw [hfb] at hok
    dsimp only at hok
    dsimp only
    rcases hO : outerLoop f now tdelta refresh_buffer
        (actual_batch_size (tdelta (now 0) (now 1)) batch_size) repetitions
        [] br.2 (tick { recordCall (warmState x bufInit gc0) with buf := br.1 })
      with ⟨out2, s3⟩
    rw [hO] at hok
    cases out2 with
    | error e => simp at hok
    | ok tsr =>
      dsimp only
      have htsr : tsr = (ts, res) := by simpa using hok
      obtain ⟨-, c2⟩ := outerLoop_ok_counts f now tdelta refresh_buffer
          (actual_batch_size (tdelta (now 0) (now 1)) batch_size) repetitions
          [] br.2 (tick { recordCall (warmState x bufInit gc0) with buf := br.1 })
          tsr s3 hO
      have habs : 0 ≤ ((actual_batch_size (tdelta (now 0) (now 1)) batch_size : ℤ) : ℚ) := by
        have h1 := actual_batch_size_pos (tdelta (now 0) (now 1)) batch_size hbs
        have h2 : (1 : ℚ) ≤ ((actual_batch_size (tdelta (now 0) (now 1)) batch_size : ℤ) : ℚ) := by
          exact_mod_cast h1
        linarith
      have hnn := outerLoop_ok_nonneg f now tdelta refresh_buffer
          (actual_batch_size (tdelta (now 0) (now 1)) batch_size) hd habs repetitions
          [] br.2 (tick { recordCall (warmState x bufInit gc0) with buf := br.1 })
          tsr s3 hO (by intro t ht; simp at ht)
      rw [htsr] at c2 hnn
      refine ⟨by simpa using c2, ?_, ?_⟩
      · rw [allNonneg, List.all_eq_true]
        intro t ht
        exact decide_eq_true (hnn t ht)
      · have hl0 : lastCallResult f
            (tick { recordCall (warmState x bufInit gc0) with buf := br.1 })
            br.2 := by
          refine ⟨(warmState x bufInit gc0).buf, rfl, ?_⟩
          rw [hfb]; rfl
        have hl1 := outerLoop_ok_lastCall f now tdelta refresh_buffer
            (actual_batch_size (tdelta (now 0) (now 1)) batch_size) repetitions
            [] br.2 (tick { recordCall (warmState x bufInit gc0) with buf := br.1 })
            tsr s3 hO hl0
        have hl2 : lastCallResult f (gcEnable s3) tsr.2 := hl1
        rw [htsr] at hl2
        exact hl2

/-- C6: with `refresh_buffer = false` (and valid arguments), on normal
return the input was copied into the buffer exactly once for the whole
run, that copy happened before the warm-up call (the warm-up call already
observes `x`), and each measurement is one bracketed interval around the
whole batch — the delta of the single pair of timer samples surrounding
the batch, divided by the effective batch size. -/
theorem no_refresh_single_copy_and_batch_interval (f : α → Except ε (α × ρ))
    (now : Nat → ℚ) (tdelta : ℚ → ℚ → ℚ) (x bufInit : α) (gc0 : Bool)
    (batch_size : ℤ) (repetitions : Nat) (ts : List ℚ) (res : ρ)
    (hok : (time_func f now tdelta x bufInit true true gc0 batch_size
      repetitions false).1 = Except.ok (ts, res)) :
    (time_func f now tdelta x bufInit true true gc0 batch_size repetitions
      false).2.copyCount = 1 ∧
    (time_func f now tdelta x bufInit true true gc0 batch_size repetitions
      false).2.trace.head? = some x ∧
    ts = (List.range repetitions).map (fun i =>
      tdelta (now (2 + 2 * i)) (now (2 + 2 * i + 1)) /
        ((actual_batch_size (tdelta (now 0) (now 1)) batch_size : ℤ) : ℚ)) := by
  rw [time_func, if_neg (by simp), if_neg (by simp)] at hok ⊢
  cases hfb : f (warmState x bufInit gc0).buf with
  | error e => rw [hfb] at hok; simp at hok
  | ok br =>
    rw [hfb] at hok
    dsimp only at hok
    dsimp only
    rcases hO : outerLoop f now tdelta false
        (actual_batch_size (tdelta (now 0) (now 1)) batch_size) repetitions
        [] br.2 (tick { recordCall (warmState x bufInit gc0) with buf := br.1 })
      with ⟨out2, s3⟩
    rw [hO] at hok
    cases out2 with
    | error e => simp at hok
    | ok tsr =>
      dsimp only
      have htsr : tsr = (ts, res) := by simpa using hok
      refine ⟨?_, ?_, ?_⟩
      · have hc := outerLoop_norefresh_copyCount f now tdelta
            (actual_batch_size (tdelta (now 0) (now 1)) batch_size) repetitions
            [] br.2 (tick { recordCall (warmState x bufInit gc0) with buf := br.1 })
        rw [hO] at hc
        exact hc
      · obtain ⟨tl, htl⟩ := outerLoop_trace_append f now tdelta false
            (actual_batch_size (tdelta (now 0) (now 1)) batch_size) repetitions
            [] br.2 (tick { recordCall (warmState x bufInit gc0) with buf := br.1 })
        rw [hO] at htl
        have hxt : s3.trace = x :: tl := htl
        have hg : (gcEnable s3).trace = s3.trace := rfl
        rw [hg, hxt]
        rfl
      · have ht := outerLoop_norefresh_times f now tdelta
            (actual_batch_size (tdelta (now 0) (now 1)) batch_size) repetitions
            [] br.2 (tick { recordCall (warmState x bufInit gc0) with buf := br.1 })
            tsr s3 hO
        rw [htsr] at ht
        have hclk : (tick { recordCall (warmState x bufInit gc0) with
            buf := br.1 }).clk = 2 := rfl
        simp only [hclk] at ht
        simpa using ht

/-- C10 witness: a run with `repetitions = 0`: the candidate is called
exactly once (the warm-up), the series is empty and the warm-up result is
returned. -/
theorem time_func_call_count_witness :
    (time_func fIncr nowId tdSub 5 99 true true true 3 0 true).1 =
      Except.ok ([], 5) ∧
    (time_func fIncr nowId tdSub 5 99 true true true 3 0 true).2.trace.length =
      1 + 0 * (actual_batch_size (tdSub (nowId 0) (nowId 1)) 3).toNat ∧
    Except.map Prod.snd (fIncr 5) = Except.ok 5 := by
  have hok : (time_func fIncr nowId tdSub 5 99 true true true 3 0 true).1 =
      Except.ok ([], 5) := rfl
  have h := time_func_call_count fIncr nowId tdSub 5 99 true 3 0 true [] 5 hok
  exact ⟨hok, h.1, (h.2 rfl).2⟩

/-- C4 witness: a degenerate timer measuring zero on every sample: one
repetition yields the series `[0]`, of length 1 with every entry
non-negative. -/
theorem time_func_measurement_series_witness :
    (1 ≤ (1 : ℤ)) ∧
    (time_func fKeep nowZero tdZero 0 0 true true true 1 1 true).1 =
      Except.ok ([0], 0) ∧
    ([(0 : ℚ)].length = 1 ∧ allNonneg [(0 : ℚ)] = true) ∧
    Except.map Prod.snd (fKeep 0) = Except.ok 0 := by
  have hok : (time_func fKeep nowZero tdZero 0 0 true true true 1 1 true).1 =
      Except.ok ([0], 0) := by
    norm_num [time_func, warmState, initState, allocate, copyto, gcDisable,
      tick, recordCall, outerLoop, innerRefresh, actual_batch_size, fKeep,
      nowZero, tdZero, pyInt, gcEnable]
  have h := time_func_measurement_series fKeep nowZero tdZero 0 0 true 1 1 true
    (by norm_num) (fun i => le_refl 0) [0] 0 hok
  exact ⟨by norm_num, hok, ⟨h.1, h.2.1⟩, rfl⟩

/-- C6 witness: one repetition with `refresh_buffer = false`, batch size 2
and the identity timer: one copy in total, the warm-up already sees the
input 5, and the single measurement is the whole-batch delta 1 divided by
the batch size 2. -/
theorem no_refresh_single_copy_and_batch_interval_witness :
    (time_func fIncr nowId tdSub 5 99 true true true 2 1 false).1 =
      Except.ok ([1 / 2], 7) ∧
    (time_func fIncr nowId tdSub 5 99 true true true 2 1 false).2.copyCount = 1 ∧
    (time_func fIncr nowId tdSub 5 99 true true true 2 1 false).2.trace.head? =
      some 5 := by
  have hok : (time_func fIncr nowId tdSub 5 99 true true true 2 1 false).1 =
      Except.ok ([1 / 2], 7) := by
    norm_num [time_func, warmState, initState, allocate, copyto, gcDisable,
      tick, recordCall, outerLoop, innerNoRefresh, actual_batch_size, fIncr,
      nowId, tdSub, pyInt, gcEnable]
  have h := no_refresh_single_copy_and_batch_interval fIncr nowId tdSub 5 99
    true 2 1 [1 / 2] 7 hok
  exact ⟨hok, h.1, h.2.1⟩

end FFTBench
